import Mathlib

/-!
# Shallow embedding of the traffic engine in `src/script.js`

The `TrafficVisualizer` class holds a road registry (`this.roads`), a vehicle
set (`this.cars`), fixed constants (`carLength = 35`, `minGap = 20`), and an
optional routing callback (`this.onCarFinishRoad`).  Its operations are
`spawnCar` (entry admission) and the per-frame `animate` body (car-following
physics followed by the junction-transition pass; the canvas drawing that is
interleaved with them touches no simulation state and is omitted, as are the
presentational road fields `x1 y1 x2 y2 dx dy angle color width`).

JavaScript numbers are modelled as exact rationals `ℚ`; IEEE-754 rounding is
outside the scope of this development.  A road's `len` field is the value
`sqrt(dx*dx+dy*dy)` computed once at `addRoad`; it is carried as data here
(the spec's invariant is `len > 0`).  Vehicles are identified by their
position in the `cars` list, mirroring the source's single mutable array;
in-place mutation of a car object becomes `List.set` at its index.

The router callback is modelled as a pure decision `Car → String → Bool`
(spec section 9: "typed as `(vehicle, finishedRoadId) -> bool`"); the engine
only consumes its boolean result.
-/

structure Road where
  id : String
  len : ℚ
  speedFactor : ℚ
deriving DecidableEq

instance : Inhabited Road := ⟨⟨"", 0, 0⟩⟩

structure Car where
  roadIndex : ℕ
  progress : ℚ
  color : String
  speed : ℚ
deriving DecidableEq

instance : Inhabited Car := ⟨⟨0, 0, "", 0⟩⟩

/-- `this.carLength = 35` (constructor). -/
def carLength : ℚ := 35

/-- `this.minGap = 20` (constructor). -/
def minGap : ℚ := 20

/-- `const safeDist = this.carLength + 15` (inside `animate`). -/
def safeDist : ℚ := carLength + 15

structure TrafficVisualizer where
  roads : List Road
  cars : List Car
  onCarFinishRoad : Option (Car → String → Bool)

/-- The scan loop of `spawnCar`:
`let minProg = 1.0; let lastCar = null;`
`for(let c of this.cars) { if(c.roadIndex === roadIndex && c.progress < minProg) { minProg = c.progress; lastCar = c; } }` -/
def findRearCar (roadIndex : ℕ) (cars : List Car) : ℚ × Option Car :=
  cars.foldl
    (fun st c =>
      if c.roadIndex = roadIndex ∧ c.progress < st.1 then (c.progress, some c) else st)
    (1, none)

/-- `spawnCar(roadId, color, existingCar)` (`src/script.js` lines 45-78).
Returns the boolean result together with the successor state (the source
mutates `this.cars` and returns the boolean). -/
def spawnCar (v : TrafficVisualizer) (roadId : String) (color : String)
    (existingCar : Option Car) : Bool × TrafficVisualizer :=
  match v.roads.findIdx? (fun r => r.id == roadId) with
  | none => (false, v)
  | some roadIndex =>
    let road := v.roads.getD roadIndex default
    let newCar : Car :=
      { roadIndex := roadIndex
        progress := 0
        color := match existingCar with | some c => c.color | none => color
        speed := match existingCar with | some c => c.speed | none => 0 }
    match findRearCar roadIndex v.cars with
    | (_, some lastCar) =>
      if lastCar.progress * road.len < carLength + minGap then (false, v)
      else (true, { v with cars := v.cars ++ [newCar] })
    | (_, none) => (true, { v with cars := v.cars ++ [newCar] })

/-- The body of the physics loop for one vehicle (`animate`, lines 108-130):
base target speed `0.01 * road.speedFactor`; if a car is ahead, compare the
absolute gap with `safeDist`: below it, stop and clamp to `aheadPos - safeDist`;
below `safeDist + 60`, brake by the factor `0.3`; otherwise free flow.
`ahead` is the (already updated) progress of the car ahead in the
descending-progress order, `none` for the lead car. -/
def followUpdate (road : Road) (ahead : Option ℚ) (car : Car) : Car :=
  let targetSpeed := (1 / 100 : ℚ) * road.speedFactor
  match ahead with
  | none => { car with progress := car.progress + targetSpeed }
  | some aheadProgress =>
    let myPos := car.progress * road.len
    let aheadPos := aheadProgress * road.len
    let dist := aheadPos - myPos
    if dist < safeDist then
      { car with progress := (aheadPos - safeDist) / road.len }
    else if dist < safeDist + 60 then
      { car with progress := car.progress + targetSpeed * (3 / 10) }
    else
      { car with progress := car.progress + targetSpeed }

/-- Indices (into `cars`) of the vehicles on road number `rIdx`, in array
order: `this.cars.filter(c => c.roadIndex === rIdx)` viewed as indices. -/
def roadIdxs (cars : List Car) (rIdx : ℕ) : List ℕ :=
  (List.range cars.length).filter (fun i => (cars.getD i default).roadIndex == rIdx)

/-- Stable insertion step for sorting indices by descending progress: an index
is placed after every index whose car has greater-or-equal progress, matching
the stable `roadCars.sort((a, b) => b.progress - a.progress)`. -/
def insertDesc (cars : List Car) (i : ℕ) : List ℕ → List ℕ
  | [] => [i]
  | j :: rest =>
    if (cars.getD i default).progress ≤ (cars.getD j default).progress then
      j :: insertDesc cars i rest
    else
      i :: j :: rest

/-- The vehicles of road `rIdx` sorted by descending progress (stable), as
indices into `cars`. -/
def sortIdxs (cars : List Car) (rIdx : ℕ) : List ℕ :=
  (roadIdxs cars rIdx).foldl (fun acc i => insertDesc cars i acc) []

/-- The `for(let i = 0; i < roadCars.length; i++)` loop of the physics pass:
walk the sorted vehicles front to back, updating each car in place
(`List.set`) and remembering the just-written progress as the `carAhead`
value of the next iteration. -/
def physicsGo (road : Road) (idxs : List ℕ) (cars : List Car) (ahead : Option ℚ) :
    List Car :=
  (idxs.foldl
    (fun st i =>
      let u := followUpdate road st.2 (st.1.getD i default)
      (st.1.set i u, some u.progress))
    (cars, ahead)).1

/-- The physics pass of `animate` for one road (lines 104-132). -/
def physicsRoad (road : Road) (rIdx : ℕ) (cars : List Car) : List Car :=
  physicsGo road (sortIdxs cars rIdx) cars none

/-- `this.roads.forEach((road, rIdx) => ...)`: fold the per-road physics pass
over the roads, threading the road's position as `rIdx`. -/
def physicsPassAux (roads : List Road) (k : ℕ) (cars : List Car) : List Car :=
  match roads with
  | [] => cars
  | road :: rest => physicsPassAux rest (k + 1) (physicsRoad road k cars)

def physicsPass (roads : List Road) (cars : List Car) : List Car :=
  physicsPassAux roads 0 cars

/-- `let moved = true; if(this.onCarFinishRoad) { moved = this.onCarFinishRoad(car, road.id); }`:
the boolean junction decision for one car. -/
def routerDecision (router : Option (Car → String → Bool)) (roads : List Road)
    (car : Car) : Bool :=
  match router with
  | none => true
  | some f => f car (roads.getD car.roadIndex default).id

/-- One index of the transition loop (`animate`, lines 135-158): for the car
at index `i`, if `car.progress >= 1`, ask the router (`moved = true` when no
router is configured); on success `splice(i, 1)`, on failure set
`car.progress = 1; car.speed = 0`.  (`this.roads[car.roadIndex]` with an
out-of-range index would fault in the source; the embedding totalises the
lookup with `getD`, and the theorems only concern in-range states, which are
the only ones the engine itself creates.) -/
def transitionAt (router : Option (Car → String → Bool)) (roads : List Road)
    (i : ℕ) (cars : List Car) : List Car :=
  let car := cars.getD i default
  if 1 ≤ car.progress then
    if routerDecision router roads car = true then
      cars.eraseIdx i
    else
      cars.set i { car with progress := 1, speed := 0 }
  else cars

/-- `for (let i = this.cars.length - 1; i >= 0; i--)`: process indices from
the top down so that removals do not shift pending elements. -/
def transitionLoop (router : Option (Car → String → Bool)) (roads : List Road) :
    ℕ → List Car → List Car
  | 0, cars => cars
  | i + 1, cars => transitionLoop router roads i (transitionAt router roads i cars)

def transitionPass (router : Option (Car → String → Bool)) (roads : List Road)
    (cars : List Car) : List Car :=
  transitionLoop router roads cars.length cars

/-- One frame of `animate` (drawing omitted): physics pass, then the
junction-transition pass. -/
def animateStep (v : TrafficVisualizer) : TrafficVisualizer :=
  { v with cars := transitionPass v.onCarFinishRoad v.roads (physicsPass v.roads v.cars) }

/-- Modelled from the spec: `updateSpeed` is invoked by the scenario layer in
`src/script.js` (`updateMod2`, the module-4 slider handler) but no definition
of it appears in the `TrafficVisualizer` class; only its callers are in the
source.  Spec section 4.1: "`updateSpeed(id, factor)` sets `speedFactor` for
the road with that id; no-op if id not found" (first match wins in lookup,
spec section 9). -/
def updateSpeed (v : TrafficVisualizer) (id : String) (factor : ℚ) :
    TrafficVisualizer :=
  match v.roads.findIdx? (fun r => r.id == id) with
  | none => v
  | some i =>
    { v with roads := v.roads.set i { v.roads.getD i default with speedFactor := factor } }

/-! ## Definitions following the spec's words (for refinement claims) -/

/-- Follows the spec's words (claim C2): the vehicle's target speed starts at
`baseSpeedConstant × road.speedFactor`; with a vehicle ahead, if the gap
`(aheadProgress − myProgress) × roadLength` is below `safeFollowingDistance`
the target speed becomes 0 and progress is clamped so that the absolute
position equals `aheadPosition − safeFollowingDistance`; below
`safeFollowingDistance + 60` the target speed is multiplied by the braking
factor `0.3`; otherwise unchanged; finally progress increases by the target
speed. -/
def specCarStep (road : Road) (ahead : Option ℚ) (car : Car) : Car :=
  let base := (1 / 100 : ℚ) * road.speedFactor
  match ahead with
  | none => { car with progress := car.progress + base }
  | some aheadProgress =>
    let gap := (aheadProgress - car.progress) * road.len
    let target : ℚ :=
      if gap < safeDist then 0
      else if gap < safeDist + 60 then base * (3 / 10)
      else base
    let clamped : ℚ :=
      if gap < safeDist then (aheadProgress * road.len - safeDist) / road.len
      else car.progress
    { car with progress := clamped + target }

/-- Follows the spec's words (claims C2, C10): the vehicles of a road, taken
in descending-progress order, are updated one after the other, each follower
seeing the progress of its leader as already updated in this frame. -/
def specRun (road : Road) : Option ℚ → List Car → List Car
  | _, [] => []
  | ahead, car :: rest =>
    let u := specCarStep road ahead car
    u :: specRun road (some u.progress) rest

/-- Follows the spec's words (claim C10, rejected alternative): the same
per-vehicle rule evaluated against a start-of-frame snapshot, each follower
seeing its leader's progress as it was before the frame's updates. -/
def snapshotRun (road : Road) : Option ℚ → List Car → List Car
  | _, [] => []
  | ahead, car :: rest =>
    specCarStep road ahead car :: snapshotRun road (some car.progress) rest

/-- Follows the spec's words (claim C3): a vehicle with progress `≥ 1` is
removed when no router is configured or the router returns `true` for it and
the id of the road it finished, and otherwise kept with progress exactly 1
and speed 0; a vehicle with progress below 1 is kept unchanged. -/
def transitionSpec (router : Option (Car → String → Bool)) (roads : List Road)
    (car : Car) : Option Car :=
  if 1 ≤ car.progress then
    if routerDecision router roads car = true then
      none
    else
      some { car with progress := 1, speed := 0 }
  else some car

/-! ## Concrete states used by counterexamples and witnesses -/

/-- A road of length 40 whose sole vehicle sits at progress 1 (a blocked
vehicle parked at the junction): its distance from the start is `40 < 55`,
yet the admission scan ignores it because `1 < 1.0` fails. -/
def vC1x : TrafficVisualizer := ⟨[⟨"A", 40, 1⟩], [⟨0, 1, "r", 0⟩], none⟩

/-- A road of length 30 whose sole vehicle sits at progress 1.2. -/
def vC7x : TrafficVisualizer := ⟨[⟨"B", 30, 1⟩], [⟨0, 6/5, "g", 0⟩], none⟩

/-- `speedFactor = 100` on a road of length 100: the leader crosses the end
and is pinned at 1 while the braking follower advances to 0.99, ending the
frame 1 distance-unit behind the leader. -/
def vC5x : TrafficVisualizer :=
  ⟨[⟨"A", 100, 100⟩], [⟨0, 7/10, "x", 0⟩, ⟨0, 69/100, "y", 0⟩], some (fun _ _ => false)⟩

/-- Two vehicles that both finish their road in the same frame and are both
pinned at progress 1 by an always-refusing router. -/
def vC6x : TrafficVisualizer :=
  ⟨[⟨"A", 100, 1⟩], [⟨0, 3/2, "a", 0⟩, ⟨0, 6/5, "b", 0⟩], some (fun _ _ => false)⟩

/-- A single pinned vehicle on its own road (for the amended pinning claim). -/
def vC6w : TrafficVisualizer :=
  ⟨[⟨"A", 100, 2⟩], [⟨0, 1, "a", 5⟩, ⟨1, 1/2, "b", 0⟩], some (fun _ _ => false)⟩

/-- Empty road registry (for the unknown-id spawn failure witness). -/
def vC8w : TrafficVisualizer := ⟨[], [⟨0, 1/2, "c", 0⟩], none⟩

/-- A very short road (length 10) with a high speed factor, reachable by
`spawnCar` / `animateStep` alone from an empty road. -/
def vC9a : TrafficVisualizer := ⟨[⟨"A", 10, 100⟩], [], some (fun _ _ => false)⟩

/-- One vehicle at progress 0.6 on a road of length 100 (admission witness). -/
def vC1w : TrafficVisualizer := ⟨[⟨"A", 100, 1⟩], [⟨0, 6/10, "r", 2⟩], none⟩

/-- One vehicle at progress 0.5 on a road of length 100. -/
def vC7w : TrafficVisualizer := ⟨[⟨"B", 100, 1⟩], [⟨0, 1/2, "g", 3⟩], none⟩

/-- Road and vehicles for the physics-pass witnesses. -/
def demoRoad : Road := ⟨"W", 100, 1⟩

def demoCars : List Car := [⟨0, 1/2, "a", 0⟩, ⟨1, 3/10, "b", 0⟩]

/-- Two vehicles 10 distance-units apart: updated-leader and snapshot
semantics disagree on the follower's clamp target. -/
def snapCars : List Car := [⟨0, 9/10, "", 0⟩, ⟨0, 8/10, "", 0⟩]

/-- Roads for the `updateSpeed` witness. -/
def vC4w : TrafficVisualizer :=
  ⟨[⟨"A", 100, 1⟩, ⟨"B", 50, 2⟩], [⟨0, 1/4, "c", 0⟩], none⟩

/-- State for the C5 amended-claim witness: a clamped follower ends exactly
`safeDist` behind its leader. -/
def vC5w : TrafficVisualizer :=
  ⟨[⟨"A", 100, 1⟩], [⟨0, 1/2, "x", 0⟩, ⟨0, 46/100, "y", 0⟩], some (fun _ _ => false)⟩

/-- The step function of the `spawnCar` scan loop (the `foldl` lambda of
`findRearCar`, named so lemmas can speak about partial scans). -/
def rearStep (r : ℕ) (st : ℚ × Option Car) (c : Car) : ℚ × Option Car :=
  if c.roadIndex = r ∧ c.progress < st.1 then (c.progress, some c) else st

/-! ## Helper lemmas: list access -/

theorem getD_set_same {α : Type _} (l : List α) (i : ℕ) (a d : α) (h : i < l.length) :
    (l.set i a).getD i d = a := by
  simp [List.getD_eq_getElem?_getD, List.getElem?_set, h]

theorem getD_set_diff {α : Type _} (l : List α) (i j : ℕ) (a d : α) (h : i ≠ j) :
    (l.set i a).getD j d = l.getD j d := by
  simp [List.getD_eq_getElem?_getD, List.getElem?_set_ne h]

/-! ## The admission scan (`findRearCar`) -/

theorem findRearCar_eq_foldl (r : ℕ) (cars : List Car) :
    findRearCar r cars = cars.foldl (rearStep r) (1, none) := rfl

/-- Characterisation of the scan loop: starting from `(m, lc)`, either no car
of road `r` has progress below `m` and the state is unchanged, or the result
is the first car attaining the minimum progress among road-`r` cars below
`m`. -/
theorem rear_fold_spec (r : ℕ) (cars : List Car) :
    ∀ (m : ℚ) (lc : Option Car),
      (cars.foldl (rearStep r) (m, lc) = (m, lc)
          ∧ ∀ c ∈ cars, c.roadIndex = r → m ≤ c.progress)
      ∨ (∃ c ∈ cars, c.roadIndex = r ∧ c.progress < m
          ∧ cars.foldl (rearStep r) (m, lc) = (c.progress, some c)
          ∧ ∀ d ∈ cars, d.roadIndex = r → c.progress ≤ d.progress) := by
  induction cars with
  | nil =>
    intro m lc
    left
    exact ⟨rfl, by simp⟩
  | cons c rest ih =>
    intro m lc
    by_cases hc : c.roadIndex = r ∧ c.progress < m
    · have hstep : List.foldl (rearStep r) (m, lc) (c :: rest)
          = List.foldl (rearStep r) (c.progress, some c) rest := by
        simp [List.foldl_cons, rearStep, hc]
      rcases ih c.progress (some c) with ⟨heq, hall⟩ | ⟨d, hd_mem, hd_r, hd_lt, heq, hmin⟩
      · right
        refine ⟨c, List.mem_cons_self c rest, hc.1, hc.2, by rw [hstep, heq], ?_⟩
        intro d hd hdr
        rcases List.mem_cons.mp hd with rfl | hd
        · exact le_refl _
        · exact hall d hd hdr
      · right
        refine ⟨d, List.mem_cons_of_mem _ hd_mem, hd_r, lt_trans hd_lt hc.2,
          by rw [hstep]; exact heq, ?_⟩
        intro e he her
        rcases List.mem_cons.mp he with rfl | he
        · exact le_of_lt hd_lt
        · exact hmin e he her
    · have hstep : List.foldl (rearStep r) (m, lc) (c :: rest)
          = List.foldl (rearStep r) (m, lc) rest := by
        simp [List.foldl_cons, rearStep, hc]
      rcases ih m lc with ⟨heq, hall⟩ | ⟨d, hd_mem, hd_r, hd_lt, heq, hmin⟩
      · left
        refine ⟨by rw [hstep]; exact heq, ?_⟩
        intro d hd hdr
        rcases List.mem_cons.mp hd with rfl | hd
        · exact le_of_not_lt (not_and.mp hc hdr)
        · exact hall d hd hdr
      · right
        refine ⟨d, List.mem_cons_of_mem _ hd_mem, hd_r, hd_lt,
          by rw [hstep]; exact heq, ?_⟩
        intro e he her
        rcases List.mem_cons.mp he with rfl | he
        · exact le_of_lt (lt_of_lt_of_le hd_lt (le_of_not_lt (not_and.mp hc her)))
        · exact hmin e he her

theorem getD_of_getElem? {α : Type _} {l : List α} {i : ℕ} {a : α} (d : α)
    (h : l[i]? = some a) : l.getD i d = a := by
  rw [List.getD_eq_getElem?_getD, h]; rfl

/-- With exactly one car on the road and its progress below 1, the scan
returns that car with its progress as the minimum. -/
theorem findRearCar_of_sole (r : ℕ) (cars : List Car) (c : Car)
    (hfilter : cars.filter (fun car => car.roadIndex == r) = [c])
    (hlt : c.progress < 1) :
    findRearCar r cars = (c.progress, some c) := by
  have hc_mem : c ∈ cars ∧ c.roadIndex = r := by
    have : c ∈ cars.filter (fun car => car.roadIndex == r) := by
      rw [hfilter]; exact List.mem_singleton_self c
    have h := List.mem_filter.mp this
    exact ⟨h.1, by simpa using h.2⟩
  have huniq : ∀ d ∈ cars, d.roadIndex = r → d = c := by
    intro d hd hdr
    have : d ∈ cars.filter (fun car => car.roadIndex == r) :=
      List.mem_filter.mpr ⟨hd, by simpa using hdr⟩
    rw [hfilter] at this
    exact List.mem_singleton.mp this
  rw [findRearCar_eq_foldl]
  rcases rear_fold_spec r cars 1 none with ⟨_, hall⟩ | ⟨d, hd_mem, hd_r, _, heq, _⟩
  · exact absurd (hall c hc_mem.1 hc_mem.2) (not_le.mpr hlt)
  · rw [heq, huniq d hd_mem hd_r]

/-- Claim C1, amended: `trySpawn` on a road holding exactly one vehicle
*whose progress is below 1* succeeds iff that vehicle's distance from the
start is at least `carLength + minGap` (boundary `≥`), and on success appends
a vehicle with progress 0 taking color and speed from the carryover when one
is supplied, otherwise the given color and speed 0. -/
theorem spawn_admission_sole (v : TrafficVisualizer) (roadId color : String)
    (existingCar : Option Car) (r : ℕ) (road : Road) (c : Car)
    (hfind : v.roads.findIdx? (fun rd => rd.id == roadId) = some r)
    (hroad : v.roads[r]? = some road)
    (hfilter : v.cars.filter (fun car => car.roadIndex == r) = [c])
    (hlt : c.progress < 1) :
    ((spawnCar v roadId color existingCar).1 = true
        ↔ carLength + minGap ≤ c.progress * road.len)
    ∧ ((spawnCar v roadId color existingCar).1 = true →
        (spawnCar v roadId color existingCar).2.cars
          = v.cars ++ [⟨r, 0,
              (match existingCar with | some e => e.color | none => color),
              (match existingCar with | some e => e.speed | none => 0)⟩]
        ∧ (spawnCar v roadId color existingCar).2.roads = v.roads) := by
  have hgetD : v.roads.getD r default = road := getD_of_getElem? default hroad
  have hrear := findRearCar_of_sole r v.cars c hfilter hlt
  by_cases h55 : c.progress * road.len < carLength + minGap
  · constructor
    · rw [show (spawnCar v roadId color existingCar) = (false, v) by
        simp only [spawnCar, hfind, hgetD, hrear]; rw [if_pos h55]]
      simp [not_le.mpr h55]
    · rw [show (spawnCar v roadId color existingCar) = (false, v) by
        simp only [spawnCar, hfind, hgetD, hrear]; rw [if_pos h55]]
      simp
  · have hres : spawnCar v roadId color existingCar
        = (true, { v with cars := v.cars ++ [⟨r, 0,
            (match existingCar with | some e => e.color | none => color),
            (match existingCar with | some e => e.speed | none => 0)⟩] }) := by
      simp only [spawnCar, hfind, hgetD, hrear]
      rw [if_neg h55]
    rw [hres]
    exact ⟨by simpa using le_of_not_lt h55, fun _ => ⟨rfl, rfl⟩⟩

/-- Claim C1 as stated is false: on `vC1x` the sole vehicle sits at absolute
distance `1 × 40 = 40 < 55 = vehicleLength + minimumGap`, so the claim
demands `trySpawn` return `false`, but the call returns `true` (the scan's
`progress < 1.0` test skips a vehicle parked at progress 1). -/
theorem spawn_admission_sole_counterexample :
    (spawnCar vC1x "A" "b" none).1 = true
    ∧ vC1x.cars.filter (fun car => car.roadIndex == 0) = [⟨0, 1, "r", 0⟩]
    ∧ (1 : ℚ) * 40 < carLength + minGap := by
  refine ⟨rfl, rfl, ?_⟩
  norm_num [carLength, minGap]

/-- Witness for `spawn_admission_sole` at `vC1w` (sole car at distance 60). -/
theorem spawn_admission_sole_witness :
    (vC1w.roads.findIdx? (fun rd => rd.id == "A") = some 0
      ∧ vC1w.roads[0]? = some ⟨"A", 100, 1⟩
      ∧ vC1w.cars.filter (fun car => car.roadIndex == 0) = [⟨0, 6/10, "r", 2⟩]
      ∧ (6/10 : ℚ) < 1)
    ∧ (((spawnCar vC1w "A" "blue" none).1 = true
        ↔ carLength + minGap ≤ (6/10 : ℚ) * 100)
      ∧ ((spawnCar vC1w "A" "blue" none).1 = true →
          (spawnCar vC1w "A" "blue" none).2.cars
            = vC1w.cars ++ [⟨0, 0, "blue", 0⟩]
          ∧ (spawnCar vC1w "A" "blue" none).2.roads = vC1w.roads)) :=
  ⟨⟨rfl, rfl, rfl, by norm_num⟩,
    spawn_admission_sole vC1w "A" "blue" none 0 ⟨"A", 100, 1⟩ ⟨0, 6/10, "r", 2⟩
      rfl rfl rfl (by norm_num)⟩

/-- Claim C7, amended: the admission check scans the road's vehicles but only
those with progress *strictly below 1* can become the comparand; among those
it uses the one with minimum progress; entry is unconditionally granted
exactly when no vehicle with progress below 1 is on the road (in particular
also when every vehicle on the road sits at progress `≥ 1`). -/
theorem spawn_rear_scan (v : TrafficVisualizer) (roadId color : String)
    (existingCar : Option Car) (r : ℕ) (road : Road)
    (hfind : v.roads.findIdx? (fun rd => rd.id == roadId) = some r)
    (hroad : v.roads[r]? = some road) :
    ((findRearCar r v.cars).2 = none
        ∧ (∀ c ∈ v.cars, c.roadIndex = r → 1 ≤ c.progress)
        ∧ (spawnCar v roadId color existingCar).1 = true)
    ∨ (∃ c, (findRearCar r v.cars).2 = some c ∧ c ∈ v.cars ∧ c.roadIndex = r
        ∧ c.progress < 1
        ∧ (∀ d ∈ v.cars, d.roadIndex = r → c.progress ≤ d.progress)
        ∧ ((spawnCar v roadId color existingCar).1 = true
            ↔ carLength + minGap ≤ c.progress * road.len)) := by
  have hgetD : v.roads.getD r default = road := getD_of_getElem? default hroad
  rcases rear_fold_spec r v.cars 1 none with ⟨heq, hall⟩ |
    ⟨c, hc_mem, hc_r, hc_lt, heq, hmin⟩
  · left
    have hrear : findRearCar r v.cars = (1, none) := by
      rw [findRearCar_eq_foldl]; exact heq
    refine ⟨by rw [hrear], hall, ?_⟩
    simp only [spawnCar, hfind, hgetD, hrear]
  · right
    have hrear : findRearCar r v.cars = (c.progress, some c) := by
      rw [findRearCar_eq_foldl]; exact heq
    refine ⟨c, by rw [hrear], hc_mem, hc_r, hc_lt, hmin, ?_⟩
    by_cases h55 : c.progress * road.len < carLength + minGap
    · rw [show (spawnCar v roadId color existingCar) = (false, v) by
        simp only [spawnCar, hfind, hgetD, hrear]; rw [if_pos h55]]
      simp [not_le.mpr h55]
    · rw [show (spawnCar v roadId color existingCar).1 = true by
        simp only [spawnCar, hfind, hgetD, hrear]; rw [if_neg h55]]
      simpa using le_of_not_lt h55

/-- Claim C7 as stated is false: on `vC7x` a vehicle is on the road (at
progress 1.2, distance `36 < 55`), so taking it as the minimum-progress
comparand the claim demands `false`, and entry is certainly not "granted
exactly when no vehicle exists"; yet the call returns `true`. -/
theorem spawn_rear_scan_counterexample :
    (spawnCar vC7x "B" "x" none).1 = true
    ∧ vC7x.cars = [⟨0, 6/5, "g", 0⟩]
    ∧ (6/5 : ℚ) * 30 < carLength + minGap := by
  refine ⟨?_, rfl, ?_⟩
  · norm_num [spawnCar, vC7x, findRearCar]
  · norm_num [carLength, minGap]

/-- Witness for `spawn_rear_scan` at `vC7w`. -/
theorem spawn_rear_scan_witness :
    (vC7w.roads.findIdx? (fun rd => rd.id == "B") = some 0
      ∧ vC7w.roads[0]? = some ⟨"B", 100, 1⟩)
    ∧ (((findRearCar 0 vC7w.cars).2 = none
        ∧ (∀ c ∈ vC7w.cars, c.roadIndex = 0 → 1 ≤ c.progress)
        ∧ (spawnCar vC7w "B" "x" none).1 = true)
      ∨ (∃ c, (findRearCar 0 vC7w.cars).2 = some c ∧ c ∈ vC7w.cars
          ∧ c.roadIndex = 0 ∧ c.progress < 1
          ∧ (∀ d ∈ vC7w.cars, d.roadIndex = 0 → c.progress ≤ d.progress)
          ∧ ((spawnCar vC7w "B" "x" none).1 = true
              ↔ carLength + minGap ≤ c.progress * (⟨"B", 100, 1⟩ : Road).len))) :=
  ⟨⟨rfl, rfl⟩, spawn_rear_scan vC7w "B" "x" none 0 ⟨"B", 100, 1⟩ rfl rfl⟩

/-- Claim C8: a failing `trySpawn` — unknown road id, or a rear car too close
to the entrance — returns `false` (no exception is modelled: the operation is
total) and leaves the whole state unchanged. -/
theorem spawn_failure_no_change (v : TrafficVisualizer) (roadId color : String)
    (existingCar : Option Car) :
    ((spawnCar v roadId color existingCar).1 = false →
        (spawnCar v roadId color existingCar).2 = v)
    ∧ (v.roads.findIdx? (fun rd => rd.id == roadId) = none →
        spawnCar v roadId color existingCar = (false, v))
    ∧ (∀ r road c, v.roads.findIdx? (fun rd => rd.id == roadId) = some r →
        v.roads[r]? = some road → (findRearCar r v.cars).2 = some c →
        c.progress * road.len < carLength + minGap →
        spawnCar v roadId color existingCar = (false, v)) := by
  refine ⟨?_, ?_, ?_⟩
  · intro hfalse
    rcases hf : v.roads.findIdx? (fun rd => rd.id == roadId) with _ | r
    · simp only [spawnCar, hf]
    · rcases hrc : findRearCar r v.cars with ⟨m, _ | lastCar⟩
      · exfalso
        rw [show (spawnCar v roadId color existingCar).1 = true by
          simp only [spawnCar, hf, hrc]] at hfalse
        simp at hfalse
      · by_cases h55 : lastCar.progress * (v.roads.getD r default).len
            < carLength + minGap
        · rw [show (spawnCar v roadId color existingCar) = (false, v) by
            simp only [spawnCar, hf, hrc]; rw [if_pos h55]]
        · exfalso
          rw [show (spawnCar v roadId color existingCar).1 = true by
            simp only [spawnCar, hf, hrc]; rw [if_neg h55]] at hfalse
          simp at hfalse
  · intro hf
    simp only [spawnCar, hf]
  · intro r road c hf hroad hrc h55
    have hgetD : v.roads.getD r default = road := getD_of_getElem? default hroad
    rcases hrc' : findRearCar r v.cars with ⟨m, oc⟩
    rw [hrc'] at hrc
    simp only at hrc
    subst hrc
    simp only [spawnCar, hf, hgetD, hrc']
    rw [if_pos h55]

/-- Witness for `spawn_failure_no_change`: spawning on an unknown road id
fails and returns the state unchanged. -/
theorem spawn_failure_no_change_witness :
    (vC8w.roads.findIdx? (fun rd => rd.id == "Z") = none)
    ∧ spawnCar vC8w "Z" "c" none = (false, vC8w) :=
  ⟨rfl, (spawn_failure_no_change vC8w "Z" "c" none).2.1 rfl⟩

/-- Claim C4 (modelled from the spec, see `updateSpeed`): `updateSpeed` sets
`speedFactor` on the (first) road whose identifier equals `id`, touching
nothing else, and is a no-op when no road with that id exists. -/
theorem updateSpeed_spec (v : TrafficVisualizer) (id : String) (factor : ℚ) :
    (v.roads.findIdx? (fun r => r.id == id) = none → updateSpeed v id factor = v)
    ∧ (∀ i road, v.roads.findIdx? (fun r => r.id == id) = some i →
        v.roads[i]? = some road →
        (updateSpeed v id factor).roads
            = v.roads.set i { road with speedFactor := factor }
        ∧ (updateSpeed v id factor).cars = v.cars
        ∧ (updateSpeed v id factor).onCarFinishRoad = v.onCarFinishRoad) := by
  refine ⟨fun hf => by simp only [updateSpeed, hf], ?_⟩
  intro i road hf hroad
  have hgetD : v.roads.getD i default = road := getD_of_getElem? default hroad
  simp only [updateSpeed, hf, hgetD]
  exact ⟨trivial, trivial, trivial⟩

/-- Witness for `updateSpeed_spec` on a two-road registry. -/
theorem updateSpeed_spec_witness :
    (vC4w.roads.findIdx? (fun r => r.id == "B") = some 1
      ∧ vC4w.roads[1]? = some ⟨"B", 50, 2⟩)
    ∧ ((updateSpeed vC4w "B" 5).roads
          = vC4w.roads.set 1 { (⟨"B", 50, 2⟩ : Road) with speedFactor := 5 }
      ∧ (updateSpeed vC4w "B" 5).cars = vC4w.cars
      ∧ (updateSpeed vC4w "B" 5).onCarFinishRoad = vC4w.onCarFinishRoad) :=
  ⟨⟨rfl, rfl⟩, (updateSpeed_spec vC4w "B" 5).2 1 ⟨"B", 50, 2⟩ rfl rfl⟩

/-! ## The junction-transition pass -/

theorem getD_append_length {α : Type _} (l₁ l₂ : List α) (c d : α) :
    (l₁ ++ c :: l₂).getD l₁.length d = c := by
  rw [List.getD_eq_getElem?_getD, List.getElem?_append_right (le_refl _)]
  simp

theorem set_append_length {α : Type _} (l₁ l₂ : List α) (c a : α) :
    (l₁ ++ c :: l₂).set l₁.length a = l₁ ++ a :: l₂ := by
  rw [List.set_append]
  simp

theorem eraseIdx_append_length {α : Type _} (l₁ l₂ : List α) (c : α) :
    (l₁ ++ c :: l₂).eraseIdx l₁.length = l₁ ++ l₂ := by
  rw [List.eraseIdx_append_of_length_le (le_refl _)]
  simp

/-- The top-down splice loop is element-wise removal/pinning: processing the
indices of `l₁` from the top down never touches the tail `l₂`. -/
theorem transitionLoop_spec (router : Option (Car → String → Bool))
    (roads : List Road) (l₁ : List Car) :
    ∀ l₂ : List Car,
      transitionLoop router roads l₁.length (l₁ ++ l₂)
        = l₁.filterMap (transitionSpec router roads) ++ l₂ := by
  induction l₁ using List.reverseRecOn with
  | nil => intro l₂; simp [transitionLoop]
  | append_singleton l₁ c ih =>
    intro l₂
    have hlen : (l₁ ++ [c]).length = l₁.length + 1 := by simp
    rw [hlen, List.append_assoc]
    show transitionLoop router roads l₁.length
        (transitionAt router roads l₁.length (l₁ ++ c :: l₂)) = _
    rw [List.filterMap_append]
    by_cases hp : 1 ≤ c.progress
    · by_cases hb : routerDecision router roads c = true
      · have hat : transitionAt router roads l₁.length (l₁ ++ c :: l₂) = l₁ ++ l₂ := by
          simp only [transitionAt, getD_append_length]
          rw [if_pos hp, if_pos hb, eraseIdx_append_length]
        have hfm : [c].filterMap (transitionSpec router roads) = [] := by
          simp only [List.filterMap, transitionSpec]
          rw [if_pos hp, if_pos hb]
        rw [hat, ih l₂, hfm, List.append_nil]
      · have hat : transitionAt router roads l₁.length (l₁ ++ c :: l₂)
            = l₁ ++ { c with progress := 1, speed := 0 } :: l₂ := by
          simp only [transitionAt, getD_append_length]
          rw [if_pos hp, if_neg hb, set_append_length]
        have hfm : [c].filterMap (transitionSpec router roads)
            = [{ c with progress := 1, speed := 0 }] := by
          simp only [List.filterMap, transitionSpec]
          rw [if_pos hp, if_neg hb]
        rw [hat, ih ({ c with progress := 1, speed := 0 } :: l₂), hfm]
        simp
    · have hat : transitionAt router roads l₁.length (l₁ ++ c :: l₂)
          = l₁ ++ c :: l₂ := by
        simp only [transitionAt, getD_append_length]
        rw [if_neg hp]
      have hfm : [c].filterMap (transitionSpec router roads) = [c] := by
        simp only [List.filterMap, transitionSpec]
        rw [if_neg hp]
      rw [hat, ih (c :: l₂), hfm]
      simp

/-- Claim C3: the transition pass treats every vehicle with progress `≥ 1`
as the spec describes — removed when no router is configured or the router
returns `true` for the vehicle and its finished road's id, kept with
progress exactly 1 and speed 0 when the router returns `false` — and keeps
vehicles below progress 1 unchanged (`transitionSpec` is that per-vehicle
rule, written from the spec's words). -/
theorem transition_pass_spec (router : Option (Car → String → Bool))
    (roads : List Road) (cars : List Car) :
    transitionPass router roads cars = cars.filterMap (transitionSpec router roads) := by
  have h := transitionLoop_spec router roads cars []
  rw [List.append_nil, List.append_nil] at h
  exact h

/-! ## The car-following pass -/

/-- The source loop body and the spec's target-speed pipeline agree. -/
theorem followUpdate_eq_specCarStep (road : Road) (ahead : Option ℚ) (car : Car) :
    followUpdate road ahead car = specCarStep road ahead car := by
  cases ahead with
  | none => rfl
  | some ap =>
    simp only [followUpdate, specCarStep]
    have hgap : (ap - car.progress) * road.len
        = ap * road.len - car.progress * road.len := by ring
    rw [hgap]
    by_cases h1 : ap * road.len - car.progress * road.len < safeDist
    · simp [h1]
    · by_cases h2 : ap * road.len - car.progress * road.len < safeDist + 60
      · simp [h1, h2]
      · simp [h1, h2]

theorem followUpdate_roadIndex (road : Road) (ahead : Option ℚ) (car : Car) :
    (followUpdate road ahead car).roadIndex = car.roadIndex := by
  cases ahead with
  | none => rfl
  | some ap =>
    simp only [followUpdate]
    split_ifs <;> rfl

theorem physicsGo_nil (road : Road) (cars : List Car) (ahead : Option ℚ) :
    physicsGo road [] cars ahead = cars := rfl

theorem physicsGo_cons (road : Road) (i : ℕ) (rest : List ℕ) (cars : List Car)
    (ahead : Option ℚ) :
    physicsGo road (i :: rest) cars ahead
      = physicsGo road rest
          (cars.set i (followUpdate road ahead (cars.getD i default)))
          (some (followUpdate road ahead (cars.getD i default)).progress) := rfl

theorem physicsGo_length (road : Road) :
    ∀ (idxs : List ℕ) (cars : List Car) (ahead : Option ℚ),
      (physicsGo road idxs cars ahead).length = cars.length := by
  intro idxs
  induction idxs with
  | nil => intro cars ahead; rfl
  | cons i rest ih =>
    intro cars ahead
    rw [physicsGo_cons, ih, List.length_set]

theorem physicsGo_roadIndex (road : Road) :
    ∀ (idxs : List ℕ) (cars : List Car) (ahead : Option ℚ) (j : ℕ),
      ((physicsGo road idxs cars ahead).getD j default).roadIndex
        = (cars.getD j default).roadIndex := by
  intro idxs
  induction idxs with
  | nil => intro cars ahead j; rfl
  | cons i rest ih =>
    intro cars ahead j
    rw [physicsGo_cons, ih]
    by_cases hij : i = j
    · subst hij
      by_cases hi : i < cars.length
      · rw [getD_set_same _ _ _ _ hi, followUpdate_roadIndex]
      · rw [List.set_eq_of_length_le (le_of_not_lt hi)]
    · rw [getD_set_diff _ _ _ _ _ hij]

/-- The in-place fold over a duplicate-free list of valid indices leaves all
other positions unchanged and writes, at the chosen indices in order, exactly
the run described by the spec's per-vehicle pipeline threaded through the
already-updated leader. -/
theorem physicsGo_spec (road : Road) :
    ∀ (idxs : List ℕ) (cars : List Car) (ahead : Option ℚ),
      idxs.Nodup → (∀ i ∈ idxs, i < cars.length) →
      (∀ j, j ∉ idxs →
          (physicsGo road idxs cars ahead).getD j default = cars.getD j default)
      ∧ idxs.map (fun i => (physicsGo road idxs cars ahead).getD i default)
          = specRun road ahead (idxs.map (fun i => cars.getD i default)) := by
  intro idxs
  induction idxs with
  | nil => intro cars ahead _ _; exact ⟨fun _ _ => rfl, rfl⟩
  | cons i rest ih =>
    intro cars ahead hnd hbd
    have hi : i < cars.length := hbd i (List.mem_cons_self _ _)
    have hnotin : i ∉ rest := (List.nodup_cons.mp hnd).1
    have hnd2 : rest.Nodup := (List.nodup_cons.mp hnd).2
    have hbd2 : ∀ k ∈ rest,
        k < (cars.set i (followUpdate road ahead (cars.getD i default))).length := by
      intro k hk
      rw [List.length_set]
      exact hbd k (List.mem_cons_of_mem _ hk)
    obtain ⟨hunt, hmap⟩ :=
      ih (cars.set i (followUpdate road ahead (cars.getD i default)))
        (some (followUpdate road ahead (cars.getD i default)).progress) hnd2 hbd2
    have hval : (physicsGo road (i :: rest) cars ahead).getD i default
        = followUpdate road ahead (cars.getD i default) := by
      rw [physicsGo_cons, hunt i hnotin, getD_set_same _ _ _ _ hi]
    constructor
    · intro j hj
      have hji : i ≠ j := fun h => hj (h ▸ List.mem_cons_self _ _)
      have hjr : j ∉ rest := fun h => hj (List.mem_cons_of_mem _ h)
      rw [physicsGo_cons, hunt j hjr, getD_set_diff _ _ _ _ _ hji]
    · rw [List.map_cons, List.map_cons]
      simp only [specRun]
      rw [← followUpdate_eq_specCarStep]
      refine List.cons_eq_cons.mpr ⟨hval, ?_⟩
      have hrestmap : rest.map
            (fun k => (cars.set i (followUpdate road ahead (cars.getD i default))).getD k default)
          = rest.map (fun k => cars.getD k default) := by
        refine List.map_congr_left ?_
        intro k hk
        have : i ≠ k := fun h => hnotin (h ▸ hk)
        exact getD_set_diff _ _ _ _ _ this
      rw [physicsGo_cons]
      rw [hmap, hrestmap]

/-! ## The descending-progress ordering -/

theorem insertDesc_perm (cars : List Car) (i : ℕ) :
    ∀ l : List ℕ, (insertDesc cars i l).Perm (i :: l) := by
  intro l
  induction l with
  | nil => exact List.Perm.refl _
  | cons j rest ih =>
    simp only [insertDesc]
    split
    · exact (ih.cons j).trans (List.Perm.swap i j rest)
    · exact List.Perm.refl _

theorem sortIdxs_fold_perm (cars : List Car) :
    ∀ (l acc : List ℕ),
      (l.foldl (fun acc i => insertDesc cars i acc) acc).Perm (l ++ acc) := by
  intro l
  induction l with
  | nil => intro acc; exact List.Perm.refl _
  | cons i rest ih =>
    intro acc
    rw [List.foldl_cons]
    exact ((ih (insertDesc cars i acc)).trans
      (List.Perm.append_left rest (insertDesc_perm cars i acc))).trans
      List.perm_middle

theorem sortIdxs_perm (cars : List Car) (rIdx : ℕ) :
    (sortIdxs cars rIdx).Perm (roadIdxs cars rIdx) := by
  have h := sortIdxs_fold_perm cars (roadIdxs cars rIdx) []
  rw [List.append_nil] at h
  exact h

theorem mem_roadIdxs_iff (cars : List Car) (rIdx j : ℕ) :
    j ∈ roadIdxs cars rIdx
      ↔ j < cars.length ∧ (cars.getD j default).roadIndex = rIdx := by
  simp [roadIdxs, List.mem_filter, List.mem_range]

theorem mem_sortIdxs_iff (cars : List Car) (rIdx j : ℕ) :
    j ∈ sortIdxs cars rIdx
      ↔ j < cars.length ∧ (cars.getD j default).roadIndex = rIdx := by
  rw [(sortIdxs_perm cars rIdx).mem_iff]
  exact mem_roadIdxs_iff cars rIdx j

theorem sortIdxs_nodup (cars : List Car) (rIdx : ℕ) : (sortIdxs cars rIdx).Nodup :=
  ((sortIdxs_perm cars rIdx).nodup_iff).mpr
    (List.Nodup.filter _ (List.nodup_range cars.length))

theorem sortIdxs_bounds (cars : List Car) (rIdx : ℕ) :
    ∀ i ∈ sortIdxs cars rIdx, i < cars.length := by
  intro i hi
  exact ((mem_sortIdxs_iff cars rIdx i).mp hi).1

theorem insertDesc_sorted (cars : List Car) (i : ℕ) :
    ∀ l : List ℕ,
      l.Pairwise (fun a b => (cars.getD b default).progress ≤ (cars.getD a default).progress) →
      (insertDesc cars i l).Pairwise
        (fun a b => (cars.getD b default).progress ≤ (cars.getD a default).progress) := by
  intro l
  induction l with
  | nil =>
    intro _
    exact List.Pairwise.cons (fun x hx => absurd hx (List.not_mem_nil x)) List.Pairwise.nil
  | cons j rest ih =>
    intro hl
    simp only [insertDesc]
    split
    · rename_i hle
      refine List.pairwise_cons.mpr ⟨?_, ih (List.pairwise_cons.mp hl).2⟩
      intro x hx
      rcases List.mem_cons.mp ((insertDesc_perm cars i rest).mem_iff.mp hx) with rfl | hx
      · exact hle
      · exact (List.pairwise_cons.mp hl).1 x hx
    · rename_i hgt
      refine List.pairwise_cons.mpr ⟨?_, hl⟩
      intro x hx
      rcases List.mem_cons.mp hx with rfl | hx
      · exact le_of_lt (lt_of_not_le hgt)
      · exact le_trans ((List.pairwise_cons.mp hl).1 x hx) (le_of_lt (lt_of_not_le hgt))

theorem sortIdxs_sorted (cars : List Car) (rIdx : ℕ) :
    (sortIdxs cars rIdx).Pairwise
      (fun a b => (cars.getD b default).progress ≤ (cars.getD a default).progress) := by
  have hgen : ∀ (l acc : List ℕ),
      acc.Pairwise (fun a b => (cars.getD b default).progress ≤ (cars.getD a default).progress) →
      (l.foldl (fun acc i => insertDesc cars i acc) acc).Pairwise
        (fun a b => (cars.getD b default).progress ≤ (cars.getD a default).progress) := by
    intro l
    induction l with
    | nil => intro acc h; exact h
    | cons i rest ih =>
      intro acc h
      rw [List.foldl_cons]
      exact ih _ (insertDesc_sorted cars i acc h)
  exact hgen (roadIdxs cars rIdx) [] (by simp)

/-- Shared characterisation of the per-road physics pass. -/
theorem physicsRoad_char (road : Road) (rIdx : ℕ) (cars : List Car) :
    (∀ j, j ∉ sortIdxs cars rIdx →
        (physicsRoad road rIdx cars).getD j default = cars.getD j default)
    ∧ (sortIdxs cars rIdx).map (fun i => (physicsRoad road rIdx cars).getD i default)
        = specRun road none ((sortIdxs cars rIdx).map (fun i => cars.getD i default)) :=
  physicsGo_spec road (sortIdxs cars rIdx) cars none
    (sortIdxs_nodup cars rIdx) (sortIdxs_bounds cars rIdx)

/-- Claim C2: in the frame's physics pass for a road, the vehicles on that
road, taken in descending-progress order, are rewritten to exactly the spec's
target-speed pipeline (`specRun` / `specCarStep`: base speed
`0.01 × speedFactor`; gap below `safeDist` forces speed 0 and clamps the
position to `aheadPosition − safeDist`; gap below `safeDist + 60` multiplies
the speed by `0.3`; otherwise free flow; finally progress increases by the
target speed), each follower reading its leader's already-updated progress;
vehicles of other roads are untouched. -/
theorem physics_road_follows_spec (road : Road) (rIdx : ℕ) (cars : List Car) :
    ((sortIdxs cars rIdx).map (fun i => (physicsRoad road rIdx cars).getD i default)
        = specRun road none ((sortIdxs cars rIdx).map (fun i => cars.getD i default)))
    ∧ ∀ j, j ∉ sortIdxs cars rIdx →
        (physicsRoad road rIdx cars).getD j default = cars.getD j default :=
  ⟨(physicsRoad_char road rIdx cars).2, (physicsRoad_char road rIdx cars).1⟩

/-- Witness for `physics_road_follows_spec` on `demoRoad` / `demoCars`. -/
theorem physics_road_follows_spec_witness :
    ((sortIdxs demoCars 0).map (fun i => (physicsRoad demoRoad 0 demoCars).getD i default)
        = specRun demoRoad none ((sortIdxs demoCars 0).map (fun i => demoCars.getD i default)))
    ∧ (1 ∉ sortIdxs demoCars 0
      ∧ (physicsRoad demoRoad 0 demoCars).getD 1 default = demoCars.getD 1 default) :=
  ⟨(physics_road_follows_spec demoRoad 0 demoCars).1,
    by decide,
    (physics_road_follows_spec demoRoad 0 demoCars).2 1 (by decide)⟩

/-- Claim C10: the physics pass takes each road's vehicles in
descending-progress order (the index list is sorted that way), writes each
update immediately so that every follower reads its leader's progress as
already updated in this frame (the `specRun` threading), and this genuinely
differs from evaluating against a start-of-frame snapshot of all positions
(`snapshotRun`): on `snapCars` the two disagree. -/
theorem physics_updated_not_snapshot (road : Road) (rIdx : ℕ) (cars : List Car) :
    (sortIdxs cars rIdx).Pairwise
        (fun a b => (cars.getD b default).progress ≤ (cars.getD a default).progress)
    ∧ ((sortIdxs cars rIdx).map (fun i => (physicsRoad road rIdx cars).getD i default)
        = specRun road none ((sortIdxs cars rIdx).map (fun i => cars.getD i default)))
    ∧ specRun demoRoad none snapCars ≠ snapshotRun demoRoad none snapCars := by
  refine ⟨sortIdxs_sorted cars rIdx, (physicsRoad_char road rIdx cars).2, ?_⟩
  intro h
  have h1 : ((specRun demoRoad none snapCars).getD 1 default).progress
      = ((snapshotRun demoRoad none snapCars).getD 1 default).progress := by rw [h]
  norm_num [specRun, snapshotRun, specCarStep, snapCars, demoRoad, safeDist,
    carLength] at h1

/-! ## Negative progress (claim C9) -/

/-- Claim C9: a configuration reachable through the engine's own operations
drives a vehicle's progress strictly below 0, and nothing guards against it.
Run: on the empty length-10 road, `spawnCar` admits a car; one frame later it
is pinned at progress 1 by the refusing router; the admission scan ignores
the pinned car (its progress is not `< 1.0`), so a second `spawnCar`
succeeds; in the next frame the clamp sets the new car's progress to
`(2 × 10 − 50) / 10 = −3`. -/
theorem progress_can_go_negative :
    (spawnCar vC9a "A" "red" none).1 = true
    ∧ (spawnCar (animateStep (spawnCar vC9a "A" "red" none).2) "A" "blue" none).1 = true
    ∧ ((animateStep (spawnCar (animateStep (spawnCar vC9a "A" "red" none).2)
          "A" "blue" none).2).cars.getD 1 default).progress < 0 := by
  have h1 : spawnCar vC9a "A" "red" none
      = (true, ⟨[⟨"A", 10, 100⟩], [⟨0, 0, "red", 0⟩], some (fun _ _ => false)⟩) := by
    norm_num [spawnCar, vC9a, findRearCar]
  have h2 : animateStep ⟨[⟨"A", 10, 100⟩], [⟨0, 0, "red", 0⟩], some (fun _ _ => false)⟩
      = ⟨[⟨"A", 10, 100⟩], [⟨0, 1, "red", 0⟩], some (fun _ _ => false)⟩ := by
    norm_num [animateStep, physicsPass, physicsPassAux, physicsRoad, physicsGo,
      sortIdxs, roadIdxs, insertDesc, followUpdate, transitionPass, transitionLoop,
      transitionAt, routerDecision, safeDist, carLength, minGap,
      List.range_succ, List.getD_eq_getElem?_getD]
  have h3 : spawnCar ⟨[⟨"A", 10, 100⟩], [⟨0, 1, "red", 0⟩], some (fun _ _ => false)⟩
        "A" "blue" none
      = (true, ⟨[⟨"A", 10, 100⟩], [⟨0, 1, "red", 0⟩, ⟨0, 0, "blue", 0⟩],
          some (fun _ _ => false)⟩) := by
    norm_num [spawnCar, findRearCar]
  have h4 : animateStep ⟨[⟨"A", 10, 100⟩], [⟨0, 1, "red", 0⟩, ⟨0, 0, "blue", 0⟩],
        some (fun _ _ => false)⟩
      = ⟨[⟨"A", 10, 100⟩], [⟨0, 1, "red", 0⟩, ⟨0, -3, "blue", 0⟩],
          some (fun _ _ => false)⟩ := by
    norm_num [animateStep, physicsPass, physicsPassAux, physicsRoad, physicsGo,
      sortIdxs, roadIdxs, insertDesc, followUpdate, transitionPass, transitionLoop,
      transitionAt, routerDecision, safeDist, carLength, minGap,
      List.range_succ, List.getD_eq_getElem?_getD]
  refine ⟨by rw [h1], ?_, ?_⟩
  · rw [h1, h2, h3]
  · rw [h1, h2, h3, h4]
    norm_num

/-! ## Counterexamples to the no-overlap and pinning claims -/

/-- Claim C5 as stated is false: after one frame of `vC5x` the road's two
vehicles (follower progress `99/100 <` leader progress `1`) are one
distance-unit apart, so `(leaderProgress − followerProgress) × roadLength ≥
safeFollowingDistance − ε` fails for every fixed `ε < 49` (the leader was
pinned back to 1 by the junction pass while the braking follower had advanced
to `0.99`). -/
theorem no_overlap_counterexample :
    ((animateStep vC5x).cars.getD 0 default).progress = 1
    ∧ ((animateStep vC5x).cars.getD 1 default).progress = 99/100
    ∧ ((animateStep vC5x).cars.getD 0 default).roadIndex = 0
    ∧ ((animateStep vC5x).cars.getD 1 default).roadIndex = 0
    ∧ ((1 : ℚ) - 99/100) * 100 < safeDist - 1 := by
  have h : animateStep vC5x
      = ⟨[⟨"A", 100, 100⟩], [⟨0, 1, "x", 0⟩, ⟨0, 99/100, "y", 0⟩],
          some (fun _ _ => false)⟩ := by
    norm_num [animateStep, vC5x, physicsPass, physicsPassAux, physicsRoad, physicsGo,
      sortIdxs, roadIdxs, insertDesc, followUpdate, transitionPass, transitionLoop,
      transitionAt, routerDecision, safeDist, carLength, minGap,
      List.range_succ, List.getD_eq_getElem?_getD]
  rw [h]
  exact ⟨rfl, rfl, rfl, rfl, by norm_num [safeDist, carLength]⟩

/-- Claim C6 as stated is false: on `vC6x` (router always `false`) both
vehicles are pinned at progress exactly 1 at the end of frame 1, but at the
end of frame 2 the second vehicle sits at `51/100 ≠ 1` — the physics clamp of
frame 2 pushed it back below 1 behind its equally-pinned leader, so it does
not "remain pinned across arbitrarily many frames". -/
theorem pinning_counterexample :
    ((animateStep vC6x).cars.getD 1 default).progress = 1
    ∧ ((animateStep (animateStep vC6x)).cars.getD 1 default).progress = 51/100
    ∧ (51/100 : ℚ) ≠ 1 := by
  have h1 : animateStep vC6x
      = ⟨[⟨"A", 100, 1⟩], [⟨0, 1, "a", 0⟩, ⟨0, 1, "b", 0⟩],
          some (fun _ _ => false)⟩ := by
    norm_num [animateStep, vC6x, physicsPass, physicsPassAux, physicsRoad, physicsGo,
      sortIdxs, roadIdxs, insertDesc, followUpdate, transitionPass, transitionLoop,
      transitionAt, routerDecision, safeDist, carLength, minGap,
      List.range_succ, List.getD_eq_getElem?_getD]
  have h2 : animateStep ⟨[⟨"A", 100, 1⟩], [⟨0, 1, "a", 0⟩, ⟨0, 1, "b", 0⟩],
        some (fun _ _ => false)⟩
      = ⟨[⟨"A", 100, 1⟩], [⟨0, 1, "a", 0⟩, ⟨0, 51/100, "b", 0⟩],
          some (fun _ _ => false)⟩ := by
    norm_num [animateStep, physicsPass, physicsPassAux, physicsRoad, physicsGo,
      sortIdxs, roadIdxs, insertDesc, followUpdate, transitionPass, transitionLoop,
      transitionAt, routerDecision, safeDist, carLength, minGap,
      List.range_succ, List.getD_eq_getElem?_getD]
  rw [h1, h2]
  exact ⟨rfl, rfl, by norm_num⟩

/-! ## Consecutive-gap bounds for the car-following pass -/

/-- Each update of the spec pipeline leaves the follower at least
`safeDist − 0.01·speedFactor·len` behind its (already updated) leader: the
clamp gives exactly `safeDist`, braking eats at most `0.3` of one frame's
free travel from a gap of at least `safeDist`, free flow starts from
`safeDist + 60`. -/
theorem specRun_chain_step (road : Road) (hlen : 0 < road.len)
    (hsf : 0 ≤ road.speedFactor) :
    ∀ (l : List Car) (ap : ℚ),
      List.Chain
        (fun x y => y * road.len
          ≤ x * road.len - (safeDist - 1 / 100 * road.speedFactor * road.len))
        ap ((specRun road (some ap) l).map Car.progress) := by
  have hδ : 0 ≤ 1 / 100 * road.speedFactor * road.len := by
    have := mul_nonneg hsf (le_of_lt hlen)
    nlinarith
  intro l
  induction l with
  | nil => intro ap; exact List.Chain.nil
  | cons c rest ih =>
    intro ap
    simp only [specRun, List.map_cons]
    refine List.Chain.cons ?_ (ih _)
    simp only [specCarStep]
    by_cases h1 : (ap - c.progress) * road.len < safeDist
    · simp only [if_pos h1]
      have hcancel : ((ap * road.len - safeDist) / road.len + 0) * road.len
          = ap * road.len - safeDist := by
        field_simp
      rw [hcancel]
      linarith
    · by_cases h2 : (ap - c.progress) * road.len < safeDist + 60
      · simp only [if_neg h1, if_pos h2]
        have hge : safeDist ≤ (ap - c.progress) * road.len := le_of_not_lt h1
        nlinarith
      · simp only [if_neg h1, if_neg h2]
        have hge : safeDist + 60 ≤ (ap - c.progress) * road.len := le_of_not_lt h2
        nlinarith

/-- Every element below a chain head is at least `g` behind it. -/
theorem chain_all_below (g len : ℚ) (hg : 0 ≤ g) :
    ∀ (l : List ℚ) (a : ℚ),
      List.Chain (fun x y => y * len ≤ x * len - g) a l →
      ∀ x ∈ l, x * len ≤ a * len - g := by
  intro l
  induction l with
  | nil => intro a _ x hx; exact absurd hx (List.not_mem_nil x)
  | cons b rest ih =>
    intro a hch x hx
    obtain ⟨hab, hch2⟩ := List.chain_cons.mp hch
    rcases List.mem_cons.mp hx with rfl | hx2
    · exact hab
    · have := ih b hch2 x hx2
      linarith

/-- Along a chain with step `g ≥ 0`, any two members with strictly ordered
values are at least `g` apart (scaled by the positive length). -/
theorem chain_gap (g len : ℚ) (hg : 0 ≤ g) (hlen : 0 < len) :
    ∀ (l : List ℚ) (a : ℚ),
      List.Chain (fun x y => y * len ≤ x * len - g) a l →
      ∀ x ∈ a :: l, ∀ y ∈ a :: l, x < y → g ≤ (y - x) * len := by
  intro l
  induction l with
  | nil =>
    intro a _ x hx y hy hxy
    rw [List.mem_singleton.mp hx, List.mem_singleton.mp hy] at hxy
    exact absurd hxy (lt_irrefl _)
  | cons b rest ih =>
    intro a hch x hx y hy hxy
    obtain ⟨hab, hch2⟩ := List.chain_cons.mp hch
    rcases List.mem_cons.mp hx with rfl | hx2
    · rcases List.mem_cons.mp hy with rfl | hy2
      · exact absurd hxy (lt_irrefl _)
      · have hyle := chain_all_below g len hg (b :: rest) x hch y hy2
        have hxy2 : x * len < y * len := mul_lt_mul_of_pos_right hxy hlen
        linarith
    · rcases List.mem_cons.mp hy with rfl | hy2
      · have hxle := chain_all_below g len hg (b :: rest) y hch x hx2
        have hexp : (y - x) * len = y * len - x * len := by ring
        linarith [hexp]
      · exact ih b hch2 x hx2 y hy2 hxy

/-- Any two vehicles in the output of one road's spec pipeline keep the
amended separation bound. -/
theorem specRun_gap (road : Road) (hlen : 0 < road.len)
    (hsf : 0 ≤ road.speedFactor)
    (hsmall : 1 / 100 * road.speedFactor * road.len ≤ safeDist) :
    ∀ (l : List Car), ∀ cf ∈ specRun road none l, ∀ cl ∈ specRun road none l,
      cf.progress < cl.progress →
      safeDist - 1 / 100 * road.speedFactor * road.len
        ≤ (cl.progress - cf.progress) * road.len := by
  intro l cf hcf cl hcl hlt
  have hg : 0 ≤ safeDist - 1 / 100 * road.speedFactor * road.len := by linarith
  cases l with
  | nil => exact absurd hcf (List.not_mem_nil cf)
  | cons c rest =>
    have hchain := specRun_chain_step road hlen hsf rest
        (specCarStep road none c).progress
    have hmemf : cf.progress ∈ (specCarStep road none c).progress
        :: (specRun road (some (specCarStep road none c).progress) rest).map Car.progress := by
      rcases List.mem_cons.mp hcf with rfl | hcf2
      · exact List.mem_cons_self _ _
      · exact List.mem_cons_of_mem _ (List.mem_map_of_mem Car.progress hcf2)
    have hmeml : cl.progress ∈ (specCarStep road none c).progress
        :: (specRun road (some (specCarStep road none c).progress) rest).map Car.progress := by
      rcases List.mem_cons.mp hcl with rfl | hcl2
      · exact List.mem_cons_self _ _
      · exact List.mem_cons_of_mem _ (List.mem_map_of_mem Car.progress hcl2)
    exact chain_gap _ road.len hg hlen _ _ hchain cf.progress hmemf cl.progress hmeml hlt

/-! ## The whole-frame physics pass -/

theorem physicsPassAux_length :
    ∀ (roads : List Road) (k : ℕ) (cars : List Car),
      (physicsPassAux roads k cars).length = cars.length := by
  intro roads
  induction roads with
  | nil => intro k cars; rfl
  | cons road rest ih =>
    intro k cars
    rw [physicsPassAux, ih, physicsRoad, physicsGo_length]

theorem physicsPassAux_roadIndex :
    ∀ (roads : List Road) (k : ℕ) (cars : List Car) (j : ℕ),
      ((physicsPassAux roads k cars).getD j default).roadIndex
        = (cars.getD j default).roadIndex := by
  intro roads
  induction roads with
  | nil => intro k cars j; rfl
  | cons road rest ih =>
    intro k cars j
    rw [physicsPassAux, ih, physicsRoad, physicsGo_roadIndex]

/-- Positions whose road number is below every remaining pass index are left
alone by the remaining passes. -/
theorem physicsPassAux_untouched_lt :
    ∀ (roads : List Road) (k : ℕ) (cars : List Car) (j : ℕ),
      (cars.getD j default).roadIndex < k →
      (physicsPassAux roads k cars).getD j default = cars.getD j default := by
  intro roads
  induction roads with
  | nil => intro k cars j _; rfl
  | cons road rest ih =>
    intro k cars j hjk
    rw [physicsPassAux]
    have hnot : j ∉ sortIdxs cars k := by
      intro hmem
      have := ((mem_sortIdxs_iff cars k j).mp hmem).2
      omega
    have huntouched : (physicsRoad road k cars).getD j default = cars.getD j default :=
      (physicsRoad_char road k cars).1 j hnot
    have hridx : ((physicsRoad road k cars).getD j default).roadIndex
        = (cars.getD j default).roadIndex := by
      rw [physicsRoad, physicsGo_roadIndex]
    rw [ih (k + 1) (physicsRoad road k cars) j (by rw [hridx]; omega), huntouched]

/-- The frame's pass over all roads acts, on the positions of road `rIdx`, as
the single pass of that road run on some intermediate state `cs` that agrees
with the start state in length, in every vehicle's road number, and in every
vehicle of road `rIdx` itself. -/
theorem physicsPassAux_road_values :
    ∀ (roads : List Road) (k : ℕ) (cars : List Car) (rIdx : ℕ) (road : Road),
      k ≤ rIdx → roads[rIdx - k]? = some road →
      ∃ cs : List Car,
        cs.length = cars.length
        ∧ (∀ j, (cs.getD j default).roadIndex = (cars.getD j default).roadIndex)
        ∧ (∀ j, (cars.getD j default).roadIndex = rIdx →
            cs.getD j default = cars.getD j default)
        ∧ (∀ j, (cs.getD j default).roadIndex = rIdx →
            (physicsPassAux roads k cars).getD j default
              = (physicsRoad road rIdx cs).getD j default) := by
  intro roads
  induction roads with
  | nil =>
    intro k cars rIdx road _ hget
    exact absurd hget (by simp)
  | cons road0 rest ih =>
    intro k cars rIdx road hk hget
    by_cases hke : k = rIdx
    · subst hke
      have hzero : k - k = 0 := by omega
      rw [hzero] at hget
      have hroad0 : road0 = road := by
        simpa using hget
      subst hroad0
      refine ⟨cars, rfl, fun _ => rfl, fun _ _ => rfl, ?_⟩
      intro j hj
      rw [physicsPassAux]
      have hridx : ((physicsRoad road0 k cars).getD j default).roadIndex
          = (cars.getD j default).roadIndex := by
        rw [physicsRoad, physicsGo_roadIndex]
      exact physicsPassAux_untouched_lt rest (k + 1) (physicsRoad road0 k cars) j
        (by rw [hridx, hj]; omega)
    · have hklt : k < rIdx := lt_of_le_of_ne hk hke
      have hget2 : rest[rIdx - (k + 1)]? = some road := by
        have : rIdx - k = (rIdx - (k + 1)) + 1 := by omega
        rw [this] at hget
        simpa using hget
      obtain ⟨cs, hlen2, hridx2, hsame2, hval2⟩ :=
        ih (k + 1) (physicsRoad road0 k cars) rIdx road (by omega) hget2
      have hpres : ∀ j, (cars.getD j default).roadIndex = rIdx →
          (physicsRoad road0 k cars).getD j default = cars.getD j default := by
        intro j hj
        refine (physicsRoad_char road0 k cars).1 j ?_
        intro hmem
        have := ((mem_sortIdxs_iff cars k j).mp hmem).2
        omega
      have hridx0 : ∀ j, ((physicsRoad road0 k cars).getD j default).roadIndex
          = (cars.getD j default).roadIndex := by
        intro j
        rw [physicsRoad, physicsGo_roadIndex]
      refine ⟨cs, ?_, ?_, ?_, ?_⟩
      · rw [hlen2, physicsRoad, physicsGo_length]
      · intro j
        rw [hridx2 j, hridx0 j]
      · intro j hj
        rw [hsame2 j (by rw [hridx0 j]; exact hj), hpres j hj]
      · intro j hj
        rw [physicsPassAux]
        exact hval2 j hj

/-- The splice loop as an element-wise `filterMap` (helper form). -/
theorem transitionPass_eq_filterMap (router : Option (Car → String → Bool))
    (roads : List Road) (cars : List Car) :
    transitionPass router roads cars = cars.filterMap (transitionSpec router roads) := by
  have h := transitionLoop_spec router roads cars []
  rw [List.append_nil, List.append_nil] at h
  exact h

/-- A vehicle that ends the frame below progress 1 went through the junction
pass unchanged. -/
theorem mem_transitionPass_of_lt_one (router : Option (Car → String → Bool))
    (roads : List Road) (l : List Car) (c : Car)
    (hc : c ∈ transitionPass router roads l) (h1 : c.progress < 1) : c ∈ l := by
  rw [transitionPass_eq_filterMap] at hc
  obtain ⟨a, ha, hfa⟩ := List.mem_filterMap.mp hc
  by_cases hp : 1 ≤ a.progress
  · by_cases hb : routerDecision router roads a = true
    · simp [transitionSpec, hp, hb] at hfa
    · simp [transitionSpec, hp, hb] at hfa
      rw [← hfa] at h1
      norm_num at h1
  · simp [transitionSpec, hp] at hfa
    exact hfa ▸ ha

/-- Decomposition used by the separation bound: all final road-`rIdx`
vehicles are members of one spec-pipeline output. -/
theorem physicsPass_road_decomp (roads : List Road) (cars : List Car)
    (rIdx : ℕ) (road : Road) (hroad : roads[rIdx]? = some road) :
    ∃ inList : List Car,
      ∀ c, c ∈ physicsPass roads cars → c.roadIndex = rIdx →
        c ∈ specRun road none inList := by
  obtain ⟨cs, hlen, hridx, _, hval⟩ :=
    physicsPassAux_road_values roads 0 cars rIdx road (Nat.zero_le _)
      (by simpa using hroad)
  refine ⟨(sortIdxs cs rIdx).map (fun i => cs.getD i default), ?_⟩
  intro c hc hcr
  obtain ⟨j, hjlt, hget⟩ := List.getElem_of_mem hc
  have hgetD : (physicsPass roads cars).getD j default = c := by
    rw [List.getD_eq_getElem?_getD, List.getElem?_eq_getElem hjlt, hget]
    rfl
  have hjlen : j < cars.length := by
    have hl := physicsPassAux_length roads 0 cars
    have : (physicsPass roads cars).length = cars.length := hl
    omega
  have hcarsr : (cars.getD j default).roadIndex = rIdx := by
    have h2 := physicsPassAux_roadIndex roads 0 cars j
    have h3 : ((physicsPass roads cars).getD j default).roadIndex
        = (cars.getD j default).roadIndex := h2
    rw [hgetD] at h3
    rw [← h3, hcr]
  have hcsr : (cs.getD j default).roadIndex = rIdx := by
    rw [hridx j]
    exact hcarsr
  have hjmem : j ∈ sortIdxs cs rIdx :=
    (mem_sortIdxs_iff cs rIdx j).mpr ⟨by rw [hlen]; exact hjlen, hcsr⟩
  have hfinal : c = (physicsRoad road rIdx cs).getD j default := by
    rw [← hgetD]
    exact hval j hcsr
  have hmapmem : (physicsRoad road rIdx cs).getD j default
      ∈ (sortIdxs cs rIdx).map (fun i => (physicsRoad road rIdx cs).getD i default) :=
    List.mem_map_of_mem _ hjmem
  rw [(physicsRoad_char road rIdx cs).2] at hmapmem
  rw [hfinal]
  exact hmapmem

/-- Claim C5, amended: at the end of a frame, two vehicles of a road of
positive length and non-negative speed factor whose one-frame free travel
`0.01 × speedFactor × len` is at most `safeDist`, with the leader still
strictly below progress 1 (so not relocated by the junction pass), are
separated by at least `safeDist − 0.01 × speedFactor × len` distance-units.
The fixed small ε of the original claim must grow to one frame's free travel,
and leaders reset to 1 by a refused junction transition are excluded
(see the counterexample). -/
theorem no_overlap_amended (v : TrafficVisualizer) (rIdx : ℕ) (road : Road)
    (cf cl : Car)
    (hroad : v.roads[rIdx]? = some road)
    (hlen : 0 < road.len) (hsf : 0 ≤ road.speedFactor)
    (hsmall : 1 / 100 * road.speedFactor * road.len ≤ safeDist)
    (hcf : cf ∈ (animateStep v).cars) (hcl : cl ∈ (animateStep v).cars)
    (hrf : cf.roadIndex = rIdx) (hrl : cl.roadIndex = rIdx)
    (hlt : cf.progress < cl.progress) (hcl1 : cl.progress < 1) :
    safeDist - 1 / 100 * road.speedFactor * road.len
      ≤ (cl.progress - cf.progress) * road.len := by
  have hcf1 : cf.progress < 1 := lt_trans hlt hcl1
  have hcf2 : cf ∈ physicsPass v.roads v.cars :=
    mem_transitionPass_of_lt_one v.onCarFinishRoad v.roads _ cf hcf hcf1
  have hcl2 : cl ∈ physicsPass v.roads v.cars :=
    mem_transitionPass_of_lt_one v.onCarFinishRoad v.roads _ cl hcl hcl1
  obtain ⟨inList, hin⟩ := physicsPass_road_decomp v.roads v.cars rIdx road hroad
  exact specRun_gap road hlen hsf hsmall inList cf (hin cf hcf2 hrf)
    cl (hin cl hcl2 hrl) hlt

/-- Witness for `no_overlap_amended` on `vC5w`: the clamped follower ends
exactly `safeDist = 50` behind its leader, within the amended bound `49`. -/
theorem no_overlap_amended_witness :
    (vC5w.roads[0]? = some ⟨"A", 100, 1⟩
      ∧ (0 : ℚ) < (⟨"A", 100, 1⟩ : Road).len
      ∧ (0 : ℚ) ≤ (⟨"A", 100, 1⟩ : Road).speedFactor
      ∧ 1 / 100 * (⟨"A", 100, 1⟩ : Road).speedFactor * (⟨"A", 100, 1⟩ : Road).len
          ≤ safeDist
      ∧ (⟨0, 1/100, "y", 0⟩ : Car) ∈ (animateStep vC5w).cars
      ∧ (⟨0, 51/100, "x", 0⟩ : Car) ∈ (animateStep vC5w).cars
      ∧ (⟨0, 1/100, "y", 0⟩ : Car).progress < (⟨0, 51/100, "x", 0⟩ : Car).progress
      ∧ (⟨0, 51/100, "x", 0⟩ : Car).progress < 1)
    ∧ safeDist - 1 / 100 * (⟨"A", 100, 1⟩ : Road).speedFactor * (⟨"A", 100, 1⟩ : Road).len
        ≤ ((⟨0, 51/100, "x", 0⟩ : Car).progress - (⟨0, 1/100, "y", 0⟩ : Car).progress)
            * (⟨"A", 100, 1⟩ : Road).len := by
  have h : animateStep vC5w
      = ⟨[⟨"A", 100, 1⟩], [⟨0, 51/100, "x", 0⟩, ⟨0, 1/100, "y", 0⟩],
          some (fun _ _ => false)⟩ := by
    norm_num [animateStep, vC5w, physicsPass, physicsPassAux, physicsRoad, physicsGo,
      sortIdxs, roadIdxs, insertDesc, followUpdate, transitionPass, transitionLoop,
      transitionAt, routerDecision, safeDist, carLength, minGap,
      List.range_succ, List.getD_eq_getElem?_getD]
  have hmf : (⟨0, 1/100, "y", 0⟩ : Car) ∈ (animateStep vC5w).cars := by
    rw [h]
    exact List.mem_cons_of_mem _ (List.mem_cons_self _ _)
  have hml : (⟨0, 51/100, "x", 0⟩ : Car) ∈ (animateStep vC5w).cars := by
    rw [h]
    exact List.mem_cons_self _ _
  refine ⟨⟨rfl, by norm_num, by norm_num, by norm_num [safeDist, carLength],
    hmf, hml, by norm_num, by norm_num⟩, ?_⟩
  exact no_overlap_amended vC5w 0 ⟨"A", 100, 1⟩ ⟨0, 1/100, "y", 0⟩ ⟨0, 51/100, "x", 0⟩
    rfl (by norm_num) (by norm_num) (by norm_num [safeDist, carLength])
    hmf hml rfl rfl (by norm_num) (by norm_num)

/-! ## Pinning of a sole vehicle (claim C6, amended) -/

theorem range_filter_eq_singleton (p : ℕ → Bool) (i : ℕ) (hp : p i = true) :
    ∀ n : ℕ, i < n → (∀ j, j < n → j ≠ i → p j = false) →
      (List.range n).filter p = [i] := by
  intro n
  induction n with
  | zero => intro h; omega
  | succ m ih =>
    intro hi hothers
    rw [List.range_succ, List.filter_append]
    by_cases him : i = m
    · subst him
      have h1 : (List.range i).filter p = [] := by
        rw [List.filter_eq_nil_iff]
        intro a ha
        have hlt := List.mem_range.mp ha
        simp [hothers a (by omega) (by omega)]
      rw [h1]
      simp [hp]
    · have h2 : (List.range m).filter p = [i] :=
        ih (by omega) (fun j hj hne => hothers j (by omega) hne)
      rw [h2]
      have h3 : p m = false := hothers m (by omega) (Ne.symm him)
      simp [h3]

theorem sortIdxs_sole (cars : List Car) (rIdx i : ℕ) (hi : i < cars.length)
    (hir : (cars.getD i default).roadIndex = rIdx)
    (hothers : ∀ j, j < cars.length → j ≠ i →
      (cars.getD j default).roadIndex ≠ rIdx) :
    sortIdxs cars rIdx = [i] := by
  have hroad : roadIdxs cars rIdx = [i] := by
    rw [roadIdxs]
    refine range_filter_eq_singleton _ i (by simpa using hir) cars.length hi ?_
    intro j hj hne
    simpa using hothers j hj hne
  rw [sortIdxs, hroad]
  rfl

/-- With a router that refuses every transition, the junction pass is the map
pinning each finished vehicle in place. -/
theorem transitionPass_always_false (f : Car → String → Bool)
    (hf : ∀ c s, f c s = false) (roads : List Road) :
    ∀ l : List Car,
      transitionPass (some f) roads l
        = l.map (fun c =>
            if 1 ≤ c.progress then { c with progress := 1, speed := 0 } else c) := by
  intro l
  rw [transitionPass_eq_filterMap]
  induction l with
  | nil => rfl
  | cons c rest ih =>
    rw [List.filterMap_cons, List.map_cons]
    have hdec : routerDecision (some f) roads c = false := hf c _
    by_cases hp : 1 ≤ c.progress
    · simp [transitionSpec, hp, hdec, ih]
    · simp [transitionSpec, hp, ih]

theorem getD_map_car (g : Car → Car) (l : List Car) (j : ℕ) (hj : j < l.length) :
    (l.map g).getD j default = g (l.getD j default) := by
  simp [List.getD_eq_getElem?_getD, List.getElem?_map, List.getElem?_eq_getElem hj]

theorem getD_default_of_le {α : Type _} [Inhabited α] (l : List α) (j : ℕ)
    (hj : l.length ≤ j) : l.getD j default = default := by
  rw [List.getD_eq_getElem?_getD, List.getElem?_eq_none hj]
  rfl

/-- One frame of the engine, on a state whose car `i` is alone on its road
with progress at least 1, under an always-refusing router: the frame keeps
the registries' shape and pins car `i` at progress exactly 1 with speed 0. -/
theorem animate_sole_pinned_step (v : TrafficVisualizer) (f : Car → String → Bool)
    (i : ℕ) (road : Road)
    (hrouter : v.onCarFinishRoad = some f)
    (hfalse : ∀ c s, f c s = false)
    (hi : i < v.cars.length)
    (hprog : 1 ≤ (v.cars.getD i default).progress)
    (hroad : v.roads[(v.cars.getD i default).roadIndex]? = some road)
    (hsf : 0 ≤ road.speedFactor)
    (hsole : ∀ j, j < v.cars.length → j ≠ i →
        (v.cars.getD j default).roadIndex ≠ (v.cars.getD i default).roadIndex) :
    (animateStep v).roads = v.roads
    ∧ (animateStep v).onCarFinishRoad = v.onCarFinishRoad
    ∧ (animateStep v).cars.length = v.cars.length
    ∧ (∀ j, ((animateStep v).cars.getD j default).roadIndex
        = (v.cars.getD j default).roadIndex)
    ∧ ((animateStep v).cars.getD i default).progress = 1
    ∧ ((animateStep v).cars.getD i default).speed = 0 := by
  obtain ⟨cs, hlen, hridx, hsame, hval⟩ :=
    physicsPassAux_road_values v.roads 0 v.cars
      ((v.cars.getD i default).roadIndex) road (Nat.zero_le _) (by simpa using hroad)
  have hcsi : cs.getD i default = v.cars.getD i default :=
    hsame i rfl
  have hcsr : (cs.getD i default).roadIndex = (v.cars.getD i default).roadIndex := by
    rw [hcsi]
  have hsort : sortIdxs cs ((v.cars.getD i default).roadIndex) = [i] := by
    refine sortIdxs_sole cs _ i (by omega) hcsr ?_
    intro j hj hne
    rw [hridx j]
    exact hsole j (by omega) hne
  have hphys_i : (physicsPass v.roads v.cars).getD i default
      = followUpdate road none (cs.getD i default) := by
    have h1 := hval i hcsr
    have h2 : physicsRoad road ((v.cars.getD i default).roadIndex) cs
        = cs.set i (followUpdate road none (cs.getD i default)) := by
      rw [physicsRoad, hsort, physicsGo_cons, physicsGo_nil]
    have h3 : physicsPass v.roads v.cars = physicsPassAux v.roads 0 v.cars := rfl
    rw [h3, h1, h2, getD_set_same _ _ _ _ (by omega)]
  have hphyslen : (physicsPass v.roads v.cars).length = v.cars.length :=
    physicsPassAux_length v.roads 0 v.cars
  have hprog2 : 1 ≤ ((physicsPass v.roads v.cars).getD i default).progress := by
    rw [hphys_i, hcsi]
    simp only [followUpdate]
    have hδ : 0 ≤ 1 / 100 * road.speedFactor := by linarith
    have : (v.cars.getD i default).progress
        ≤ (v.cars.getD i default).progress + 1 / 100 * road.speedFactor := by linarith
    linarith
  have hcars : (animateStep v).cars
      = (physicsPass v.roads v.cars).map (fun c =>
          if 1 ≤ c.progress then { c with progress := 1, speed := 0 } else c) := by
    rw [animateStep, hrouter]
    exact transitionPass_always_false f hfalse v.roads _
  refine ⟨rfl, rfl, ?_, ?_, ?_, ?_⟩
  · rw [hcars, List.length_map, hphyslen]
  · intro j
    by_cases hj : j < v.cars.length
    · rw [hcars, getD_map_car _ _ _ (by omega)]
      have hrj := physicsPassAux_roadIndex v.roads 0 v.cars j
      by_cases hp : 1 ≤ ((physicsPass v.roads v.cars).getD j default).progress
      · simp only [if_pos hp]
        exact hrj
      · simp only [if_neg hp]
        exact hrj
    · rw [hcars, getD_default_of_le _ _ (by rw [List.length_map]; omega),
        getD_default_of_le _ _ (by omega)]
  · rw [hcars, getD_map_car _ _ _ (by omega), if_pos hprog2]
  · rw [hcars, getD_map_car _ _ _ (by omega), if_pos hprog2]

/-- Claim C6, amended: once a vehicle's progress reaches `≥ 1` under a router
that keeps returning `false`, and it is the only vehicle on its (existing,
non-negative-speed-factor) road, it is pinned at progress exactly 1 with
speed 0 at the end of every following frame — across arbitrarily many frames.
(Without the sole-vehicle restriction the claim fails: see the
counterexample, where a second pinned vehicle is clamped back below 1.) -/
theorem pinned_sole_vehicle_stays (v : TrafficVisualizer) (f : Car → String → Bool)
    (i : ℕ) (road : Road)
    (hrouter : v.onCarFinishRoad = some f)
    (hfalse : ∀ c s, f c s = false)
    (hi : i < v.cars.length)
    (hprog : 1 ≤ (v.cars.getD i default).progress)
    (hroad : v.roads[(v.cars.getD i default).roadIndex]? = some road)
    (hsf : 0 ≤ road.speedFactor)
    (hsole : ∀ j, j < v.cars.length → j ≠ i →
        (v.cars.getD j default).roadIndex ≠ (v.cars.getD i default).roadIndex) :
    ∀ n, 1 ≤ n →
      ((animateStep^[n] v).cars.getD i default).progress = 1
      ∧ ((animateStep^[n] v).cars.getD i default).speed = 0 := by
  have key : ∀ n,
      (animateStep^[n] v).roads = v.roads
      ∧ (animateStep^[n] v).onCarFinishRoad = v.onCarFinishRoad
      ∧ (animateStep^[n] v).cars.length = v.cars.length
      ∧ (∀ j, ((animateStep^[n] v).cars.getD j default).roadIndex
          = (v.cars.getD j default).roadIndex)
      ∧ 1 ≤ ((animateStep^[n] v).cars.getD i default).progress
      ∧ (1 ≤ n → ((animateStep^[n] v).cars.getD i default).progress = 1
          ∧ ((animateStep^[n] v).cars.getD i default).speed = 0) := by
    intro n
    induction n with
    | zero => exact ⟨rfl, rfl, rfl, fun _ => rfl, hprog, by omega⟩
    | succ m ihm =>
      obtain ⟨hro, hrt, hln, hrj, hpg, _⟩ := ihm
      have hstep := animate_sole_pinned_step (animateStep^[m] v) f i road
        (by rw [hrt, hrouter]) hfalse (by omega) hpg
        (by rw [hrj i, hro]; exact hroad) hsf
        (by
          intro j hj hne
          rw [hrj j, hrj i]
          exact hsole j (by omega) hne)
      rw [Function.iterate_succ_apply']
      obtain ⟨h1, h2, h3, h4, h5, h6⟩ := hstep
      refine ⟨by rw [h1, hro], by rw [h2, hrt], by rw [h3, hln], ?_, ?_, ?_⟩
      · intro j
        rw [h4 j, hrj j]
      · rw [h5]
      · intro _
        exact ⟨h5, h6⟩
  intro n hn
  exact (key n).2.2.2.2.2 hn

/-- Witness for `pinned_sole_vehicle_stays` on `vC6w` at `n = 2`. -/
theorem pinned_sole_vehicle_stays_witness :
    (vC6w.onCarFinishRoad = some (fun _ _ => false)
      ∧ (∀ (c : Car) (s : String), (fun (_ : Car) (_ : String) => false) c s = false)
      ∧ 0 < vC6w.cars.length
      ∧ 1 ≤ (vC6w.cars.getD 0 default).progress
      ∧ vC6w.roads[(vC6w.cars.getD 0 default).roadIndex]? = some ⟨"A", 100, 2⟩
      ∧ (0 : ℚ) ≤ (⟨"A", 100, 2⟩ : Road).speedFactor
      ∧ (∀ j, j < vC6w.cars.length → j ≠ 0 →
          (vC6w.cars.getD j default).roadIndex ≠ (vC6w.cars.getD 0 default).roadIndex)
      ∧ 1 ≤ 2)
    ∧ ((animateStep^[2] vC6w).cars.getD 0 default).progress = 1
    ∧ ((animateStep^[2] vC6w).cars.getD 0 default).speed = 0 := by
  have hfalse : ∀ (c : Car) (s : String), (fun (_ : Car) (_ : String) => false) c s = false :=
    fun _ _ => rfl
  have hsole : ∀ j, j < vC6w.cars.length → j ≠ 0 →
      (vC6w.cars.getD j default).roadIndex ≠ (vC6w.cars.getD 0 default).roadIndex := by
    intro j hj hne
    have hj2 : j < 2 := by simpa [vC6w] using hj
    interval_cases j
    · exact absurd rfl hne
    · simp [vC6w]
  have hprog : (1 : ℚ) ≤ (vC6w.cars.getD 0 default).progress := le_refl 1
  refine ⟨⟨rfl, hfalse, by norm_num [vC6w], hprog, rfl, by norm_num, hsole, by norm_num⟩, ?_⟩
  exact pinned_sole_vehicle_stays vC6w (fun _ _ => false) 0 ⟨"A", 100, 2⟩
    rfl hfalse (by norm_num [vC6w]) hprog rfl (by norm_num) hsole 2 (by norm_num)
